import Mathlib

/-!
Verification development for the `body-gravity-simulation` repository
(`src/body-gravity-simulation.py`), a leapfrog (kick-drift-kick) N-body
gravity integrator.

The Python source is shallowly embedded: Python floats are modelled as real
numbers (`ℝ`), Python lists as Lean `List`s, and the in-place mutation of
`Body` objects as explicit state passing on immutable structures.  The
`while` loop of `System.start_sim` is modelled by well-founded recursion
(terminating exactly when `0 < dt`; for `dt ≤ 0` the Python loop would not
terminate, so the model exits immediately in that case).  The sequential
in-place acceleration sweep of `__calculate_acc_for_all_bodies` — in which
later `get_acc_for_body` calls see the already-updated `acceleration`
fields of earlier bodies — is embedded faithfully as a sequential list
update (`accSweep`), not as a snapshot `map`.
-/

/-- Gravitational constant, from line 9 of the source: `G = 6.67259e-11`. -/
noncomputable def G : ℝ := 6.67259e-11

/-- `class Point`: holds 3-dimensional coordinates (source lines 14-24). -/
@[ext] structure Point where
  x : ℝ
  y : ℝ
  z : ℝ

/-- `Point.__init__` default: `Point()` is `Point(0, 0, 0)`. -/
def Point.zero : Point := ⟨0, 0, 0⟩

/-- `class Body` (source lines 28-39).  `position_list` stores the recorded
position samples; the Python triple `[pos.x, pos.y, pos.z]` is modelled as
the `Point` carrying those three coordinates. -/
structure Body where
  name : String
  mass : ℝ
  position : Point
  velocity : Point
  acceleration : Point
  position_list : List Point

/-- `Body.__init__(name, mass, position, velocity)`: `acceleration` starts
as `Point()` and `position_list` as `[]` (source lines 29-35). -/
def Body.init (name : String) (mass : ℝ) (position velocity : Point) : Body :=
  ⟨name, mass, position, velocity, Point.zero, []⟩

/-- `Body.add_current_pos_to_list` (source lines 37-39): appends the current
position to `position_list`. -/
def Body.add_current_pos_to_list (b : Body) : Body :=
  { b with position_list := b.position_list ++ [b.position] }

/-- `class System` (source lines 43-118). -/
structure System where
  bodies : List Body
  start : ℝ
  stop : ℝ
  dt : ℝ
  t : ℝ

/-- `System.__init__(start, stop, dt)` (source lines 44-49): empty body
list, `t = start`. -/
def System.init (start stop dt : ℝ) : System :=
  ⟨[], start, stop, dt, start⟩

/-- A Python value passed to `add_body`: either a `Body` instance or any
other value (the `isinstance(body, Body)` check distinguishes the two). -/
inductive PyVal where
  | body : Body → PyVal
  | nonBody : PyVal

/-- `System.add_body` (source lines 51-57): appends the entry and returns 0
if it is a `Body`, otherwise returns 1 leaving the body list unchanged. -/
def System.add_body (s : System) (v : PyVal) : System × Nat :=
  match v with
  | .body b => ({ s with bodies := s.bodies ++ [b] }, 0)
  | .nonBody => (s, 1)

/-- The accumulation loop of `System.get_acc_for_body` (source lines
101-112): folds over the body list, skipping bodies with an equal name,
and for the rest adds `-(G * other_body.mass * d) / r**3` componentwise
when `r**3 > 10e-10`, where `r = sqrt(dx*dx + dy*dy + dz*dz)`. -/
noncomputable def getAccAux (b : Body) : List Body → Point → Point
  | [], acc => acc
  | o :: rest, acc =>
      getAccAux b rest
        (if b.name ≠ o.name then
          let dx := b.position.x - o.position.x
          let dy := b.position.y - o.position.y
          let dz := b.position.z - o.position.z
          let r := Real.sqrt (dx * dx + dy * dy + dz * dz)
          if r ^ 3 > 10e-10 then
            ⟨acc.x + -(G * o.mass * dx) / r ^ 3,
             acc.y + -(G * o.mass * dy) / r ^ 3,
             acc.z + -(G * o.mass * dz) / r ^ 3⟩
          else acc
        else acc)

/-- `System.get_acc_for_body` (source lines 97-114): starts from `Point()`
and accumulates over `self.bodies`. -/
noncomputable def System.get_acc_for_body (s : System) (b : Body) : Point :=
  getAccAux b s.bodies Point.zero

/-- The sequential in-place sweep of `__calculate_acc_for_all_bodies`
(source lines 81-83): `done` holds the already-updated bodies; each
`get_acc_for_body` call sees the current list `done ++ todo`, exactly as
the Python `for` loop sees the partially-updated `self.bodies`. -/
noncomputable def accSweep : List Body → List Body → List Body
  | done, [] => done
  | done, b :: rest =>
      accSweep (done ++ [{ b with acceleration := getAccAux b (done ++ b :: rest) Point.zero }]) rest

/-- `System.__calculate_acc_for_all_bodies` (source lines 81-83). -/
noncomputable def System.calculate_acc_for_all_bodies (s : System) : System :=
  { s with bodies := accSweep [] s.bodies }

/-- Loop body of `__update_vel_for_all_bodies` (source lines 85-89):
`velocity += acceleration * dt`, componentwise. -/
noncomputable def kickBody (dt : ℝ) (b : Body) : Body :=
  { b with velocity :=
      ⟨b.velocity.x + b.acceleration.x * dt,
       b.velocity.y + b.acceleration.y * dt,
       b.velocity.z + b.acceleration.z * dt⟩ }

/-- `System.__update_vel_for_all_bodies(dt)` (source lines 85-89); each
body's update reads only its own fields, so the Python `for` loop is a
`map`. -/
noncomputable def System.update_vel_for_all_bodies (s : System) (dt : ℝ) : System :=
  { s with bodies := s.bodies.map (kickBody dt) }

/-- Loop body of `__update_pos_for_all_bodies` (source lines 91-95):
`position += velocity * self.dt`, componentwise. -/
noncomputable def driftBody (dt : ℝ) (b : Body) : Body :=
  { b with position :=
      ⟨b.position.x + b.velocity.x * dt,
       b.position.y + b.velocity.y * dt,
       b.position.z + b.velocity.z * dt⟩ }

/-- `System.__update_pos_for_all_bodies` (source lines 91-95). -/
noncomputable def System.update_pos_for_all_bodies (s : System) : System :=
  { s with bodies := s.bodies.map (driftBody s.dt) }

/-- `System.__add_pos_to_list_for_all_bodies` (source lines 116-118). -/
def System.add_pos_to_list_for_all_bodies (s : System) : System :=
  { s with bodies := s.bodies.map Body.add_current_pos_to_list }

/-- One iteration of the `while` loop of `start_sim` (source lines 71-78):
drift, recompute accelerations, kick, record, advance the clock — in that
order. -/
noncomputable def loopBody (s : System) : System :=
  let s1 := s.update_pos_for_all_bodies
  let s2 := s1.calculate_acc_for_all_bodies
  let s3 := s2.update_vel_for_all_bodies s.dt
  let s4 := s3.add_pos_to_list_for_all_bodies
  { s4 with t := s4.t + s4.dt }

/-- The number of iterations the `while self.t <= self.stop` loop performs
from state `s` (used as the termination measure and the iteration count):
`⌊(stop - t)/dt⌋ + 1` when the loop is entered at all, else `0`. -/
noncomputable def loopIters (s : System) : ℕ :=
  if 0 < s.dt ∧ s.t ≤ s.stop then ⌊(s.stop - s.t) / s.dt⌋₊ + 1 else 0

/-- The `while self.t <= self.stop` loop of `start_sim` (source lines
71-78), by well-founded recursion.  The extra `0 < s.dt` guard makes the
model total: for `dt ≤ 0` the Python loop would never terminate. -/
noncomputable def runLoop (s : System) : System :=
  if h : 0 < s.dt ∧ s.t ≤ s.stop then runLoop (loopBody s) else s
termination_by loopIters s
decreasing_by
  simp_wf
  have hdt : (0 : ℝ) < s.dt := h.1
  have hts : s.t ≤ s.stop := h.2
  have hdt2 : (loopBody s).dt = s.dt := rfl
  have hst2 : (loopBody s).stop = s.stop := rfl
  have ht2 : (loopBody s).t = s.t + s.dt := rfl
  have hR : loopIters s = ⌊(s.stop - s.t) / s.dt⌋₊ + 1 := by
    unfold loopIters
    rw [if_pos ⟨hdt, hts⟩]
  by_cases hc : s.t + s.dt ≤ s.stop
  · have hL : loopIters (loopBody s) = ⌊(s.stop - (s.t + s.dt)) / s.dt⌋₊ + 1 := by
      unfold loopIters
      rw [hdt2, hst2, ht2, if_pos ⟨hdt, hc⟩]
    have h1 : (s.stop - s.t) / s.dt = (s.stop - (s.t + s.dt)) / s.dt + 1 := by
      field_simp
      ring
    have h0 : (0 : ℝ) ≤ (s.stop - (s.t + s.dt)) / s.dt :=
      div_nonneg (by linarith) (le_of_lt hdt)
    rw [hL, hR, h1, Nat.floor_add_one h0]
    omega
  · have hL : loopIters (loopBody s) = 0 := by
      unfold loopIters
      rw [hdt2, hst2, ht2, if_neg]
      intro hcon
      exact hc hcon.2
    rw [hL, hR]
    omega

/-- The initialisation phase of `start_sim` (source lines 63-69): initial
acceleration sweep, half-kick with `dt/2`, record initial positions. -/
noncomputable def initPhase (s : System) : System :=
  ((s.calculate_acc_for_all_bodies).update_vel_for_all_bodies (s.dt / 2)).add_pos_to_list_for_all_bodies

/-- `System.start_sim` (source lines 62-79). -/
noncomputable def System.start_sim (s : System) : System :=
  runLoop (initPhase s)

/-- The projection of a `Body` that `get_acc_for_body` reads: name, mass and
position.  Two body lists agreeing under this view yield identical
accelerations. -/
def bodyView (b : Body) : String × ℝ × Point :=
  (b.name, b.mass, b.position)

/-- Written from the spec's words (claim C2): the acceleration contribution
of body `o` on body `b` is `-(G * o.mass * d) / r^3` componentwise, where
`d = b.position - o.position` and `r` is the Euclidean norm of `d`,
included exactly when `r^3 > 1e-9` and zero otherwise. -/
noncomputable def specContrib (b o : Body) : Point :=
  let dx := b.position.x - o.position.x
  let dy := b.position.y - o.position.y
  let dz := b.position.z - o.position.z
  let r := Real.sqrt (dx * dx + dy * dy + dz * dz)
  if r ^ 3 > 1e-9 then
    ⟨-(G * o.mass * dx) / r ^ 3,
     -(G * o.mass * dy) / r ^ 3,
     -(G * o.mass * dz) / r ^ 3⟩
  else Point.zero

/-- Written from the spec's words (claim C1): compute every body's
acceleration from the current position snapshot — all bodies use the same
snapshot. -/
noncomputable def specAccAll (s : System) : System :=
  { s with bodies := s.bodies.map (fun b => { b with acceleration := s.get_acc_for_body b }) }

/-- Written from the spec's words (claim C1): half-kick, `velocity +=
acceleration * (dt / 2)` for every body. -/
noncomputable def specHalfKick (s : System) : System :=
  { s with bodies := s.bodies.map (fun b =>
      { b with velocity :=
          ⟨b.velocity.x + b.acceleration.x * (s.dt / 2),
           b.velocity.y + b.acceleration.y * (s.dt / 2),
           b.velocity.z + b.acceleration.z * (s.dt / 2)⟩ }) }

/-- Written from the spec's words (claim C1): kick, `velocity +=
acceleration * dt` for every body. -/
noncomputable def specKick (s : System) : System :=
  { s with bodies := s.bodies.map (fun b =>
      { b with velocity :=
          ⟨b.velocity.x + b.acceleration.x * s.dt,
           b.velocity.y + b.acceleration.y * s.dt,
           b.velocity.z + b.acceleration.z * s.dt⟩ }) }

/-- Written from the spec's words (claim C1): drift, `position += velocity
* dt` for every body. -/
noncomputable def specDrift (s : System) : System :=
  { s with bodies := s.bodies.map (fun b =>
      { b with position :=
          ⟨b.position.x + b.velocity.x * s.dt,
           b.position.y + b.velocity.y * s.dt,
           b.position.z + b.velocity.z * s.dt⟩ }) }

/-- Written from the spec's words (claim C1): record every body's current
position. -/
def specRecord (s : System) : System :=
  { s with bodies := s.bodies.map (fun b => { b with position_list := b.position_list ++ [b.position] }) }

/-- Written from the spec's words (claim C1): one main-loop iteration —
drift, recompute accelerations from the new snapshot, kick, record,
advance the clock by `dt`, in that order. -/
noncomputable def specStep (s : System) : System :=
  let s1 := specDrift s
  let s2 := specAccAll s1
  let s3 := specKick s2
  let s4 := specRecord s3
  { s4 with t := s4.t + s4.dt }

/-- Written from the spec's words (claim C1): the initial phase — compute
accelerations from the initial positions, half-kick, record the initial
positions. -/
noncomputable def specInit (s : System) : System :=
  specRecord (specHalfKick (specAccAll s))

/-- Written from the spec's words (claims C1/C3): the number of main-loop
iterations, `⌊(stop - start) / dt⌋ + 1` when `start ≤ stop` and `0`
otherwise. -/
noncomputable def specCount (s : System) : ℕ :=
  if s.start ≤ s.stop then ⌊(s.stop - s.start) / s.dt⌋₊ + 1 else 0

/-- Concrete probe body: name `A`, negative mass. -/
def cxBodyA : Body := Body.init "A" (-5) ⟨0, 0, 0⟩ ⟨0, 0, 0⟩

/-- Concrete probe body sharing the name `A`. -/
def cxBodyB : Body := Body.init "A" 1 ⟨1, 0, 0⟩ ⟨0, 0, 0⟩

/-- A system built like the Python `main` does — `System(start, stop, dt)`
then `add_body` — but with duplicate names and a negative mass. -/
def cxSystem : System :=
  (((System.init 0 0 1).add_body (PyVal.body cxBodyA)).1.add_body (PyVal.body cxBodyB)).1

/-- Concrete single witness body. -/
def wBody : Body := Body.init "W" 1 ⟨2, 3, 4⟩ ⟨1, 0, 0⟩

/-- Concrete single-body witness system over `[0, 1]` with `dt = 1`. -/
def wSystem : System := ((System.init 0 1 1).add_body (PyVal.body wBody)).1

theorem loopBody_dt (s : System) : (loopBody s).dt = s.dt := rfl

theorem loopBody_stop (s : System) : (loopBody s).stop = s.stop := rfl

theorem loopBody_start (s : System) : (loopBody s).start = s.start := rfl

theorem loopBody_t (s : System) : (loopBody s).t = s.t + s.dt := rfl

theorem runLoop_eq (s : System) :
    runLoop s = if 0 < s.dt ∧ s.t ≤ s.stop then runLoop (loopBody s) else s := by
  rw [runLoop]
  exact dite_eq_ite

theorem loopIters_succ (s : System) (hdt : 0 < s.dt) (hts : s.t ≤ s.stop) :
    loopIters s = loopIters (loopBody s) + 1 := by
  have hR : loopIters s = ⌊(s.stop - s.t) / s.dt⌋₊ + 1 := by
    unfold loopIters
    rw [if_pos ⟨hdt, hts⟩]
  by_cases hc : s.t + s.dt ≤ s.stop
  · have hL : loopIters (loopBody s) = ⌊(s.stop - (s.t + s.dt)) / s.dt⌋₊ + 1 := by
      unfold loopIters
      rw [loopBody_dt, loopBody_stop, loopBody_t, if_pos ⟨hdt, hc⟩]
    have h1 : (s.stop - s.t) / s.dt = (s.stop - (s.t + s.dt)) / s.dt + 1 := by
      field_simp
      ring
    have h0 : (0 : ℝ) ≤ (s.stop - (s.t + s.dt)) / s.dt :=
      div_nonneg (by linarith) (le_of_lt hdt)
    rw [hL, hR, h1, Nat.floor_add_one h0]
  · have hL : loopIters (loopBody s) = 0 := by
      unfold loopIters
      rw [loopBody_dt, loopBody_stop, loopBody_t, if_neg]
      intro hcon
      exact hc hcon.2
    rw [hL, hR]
    have : (s.stop - s.t) / s.dt < 1 := by
      rw [div_lt_one hdt]
      linarith
    have hfl : ⌊(s.stop - s.t) / s.dt⌋₊ = 0 := Nat.floor_eq_zero.mpr this
    rw [hfl]

theorem loopIters_zero (s : System) (h : loopIters s = 0) :
    ¬(0 < s.dt ∧ s.t ≤ s.stop) := by
  intro hg
  unfold loopIters at h
  rw [if_pos hg] at h
  omega

theorem runLoop_iterate_aux : ∀ (n : ℕ) (s : System), loopIters s = n →
    runLoop s = loopBody^[n] s := by
  intro n
  induction n with
  | zero =>
      intro s h
      rw [runLoop_eq, if_neg (loopIters_zero s h)]
      rfl
  | succ k ih =>
      intro s h
      by_cases hg : 0 < s.dt ∧ s.t ≤ s.stop
      · have hk : loopIters (loopBody s) = k := by
          have := loopIters_succ s hg.1 hg.2
          omega
        rw [runLoop_eq, if_pos hg, ih (loopBody s) hk, Function.iterate_succ_apply]
      · unfold loopIters at h
        rw [if_neg hg] at h
        omega

/-- The `while` loop equals `loopIters s` sequential applications of the
loop body. -/
theorem runLoop_eq_iterate (s : System) : runLoop s = loopBody^[loopIters s] s :=
  runLoop_iterate_aux (loopIters s) s rfl

theorem getAccAux_congr (b : Body) :
    ∀ (l₁ l₂ : List Body), l₁.map bodyView = l₂.map bodyView →
    ∀ a, getAccAux b l₁ a = getAccAux b l₂ a := by
  intro l₁
  induction l₁ with
  | nil =>
      intro l₂ h a
      cases l₂ with
      | nil => rfl
      | cons o r => simp at h
  | cons o rest ih =>
      intro l₂ h a
      cases l₂ with
      | nil => simp at h
      | cons o₂ rest₂ =>
          simp only [List.map_cons, List.cons.injEq, bodyView, Prod.mk.injEq] at h
          obtain ⟨⟨hn, hm, hp⟩, h2⟩ := h
          unfold getAccAux
          simp only [hn, hm, hp]
          exact ih rest₂ h2 _

theorem accSweep_spec (L : List Body) :
    ∀ (todo done : List Body), (done ++ todo).map bodyView = L.map bodyView →
    accSweep done todo = done ++ todo.map (fun b => { b with acceleration := getAccAux b L Point.zero }) := by
  intro todo
  induction todo with
  | nil =>
      intro done h
      simp [accSweep]
  | cons b rest ih =>
      intro done h
      unfold accSweep
      rw [getAccAux_congr b (done ++ b :: rest) L h Point.zero]
      have hview : ((done ++ [{ b with acceleration := getAccAux b L Point.zero }]) ++ rest).map bodyView = L.map bodyView := by
        rw [← h]
        simp [bodyView]
      rw [ih _ hview]
      simp

/-- The sequential in-place acceleration sweep computes, for every body,
exactly the acceleration determined by the pre-sweep snapshot. -/
theorem calc_acc_eq_specAccAll (s : System) :
    s.calculate_acc_for_all_bodies = specAccAll s := by
  have h := accSweep_spec s.bodies s.bodies [] (by simp)
  rw [List.nil_append] at h
  unfold System.calculate_acc_for_all_bodies specAccAll System.get_acc_for_body
  rw [h]

/-- The drift pass of the source is the drift of the spec. -/
theorem update_pos_eq_specDrift (s : System) : s.update_pos_for_all_bodies = specDrift s := rfl

/-- One source loop iteration is exactly one spec kick-drift-kick step. -/
theorem loopBody_eq_specStep (s : System) : loopBody s = specStep s := by
  unfold loopBody specStep
  simp only [update_pos_eq_specDrift, calc_acc_eq_specAccAll]
  rfl

/-- The source initialisation phase is exactly the spec initialisation. -/
theorem initPhase_eq_specInit (s : System) : initPhase s = specInit s := by
  unfold initPhase specInit
  rw [calc_acc_eq_specAccAll]
  rfl

theorem initPhase_t (s : System) : (initPhase s).t = s.t := rfl

theorem initPhase_stop (s : System) : (initPhase s).stop = s.stop := rfl

theorem initPhase_dt (s : System) : (initPhase s).dt = s.dt := rfl

theorem loopIters_initPhase (s : System) (ht : s.t = s.start) (hdt : 0 < s.dt) :
    loopIters (initPhase s) = specCount s := by
  unfold loopIters specCount
  rw [initPhase_t, initPhase_stop, initPhase_dt, ht]
  by_cases hss : s.start ≤ s.stop
  · rw [if_pos ⟨hdt, hss⟩, if_pos hss]
  · rw [if_neg (fun hc => hss hc.2), if_neg hss]

/-- C1. For every body set and every `start`, `stop`, `dt` with `dt > 0`,
`start_sim` performs exactly the kick-drift-kick sequence: it first
computes every body's acceleration from the initial positions, then adds
`acceleration * (dt/2)` to every body's velocity (half-kick), then records
every body's position; thereafter, while `t <= stop`, it adds
`velocity * dt` to every position (drift), recomputes every acceleration
from the new positions, adds `acceleration * dt` to every velocity (kick),
records every position, and advances `t` by `dt`, in that order — i.e.,
`start_sim` is `specCount` applications of the spec's loop step after the
spec's initialisation phase. -/
theorem start_sim_is_kick_drift_kick (s : System) (ht : s.t = s.start) (hdt : 0 < s.dt) :
    s.start_sim = specStep^[specCount s] (specInit s) := by
  unfold System.start_sim
  rw [runLoop_eq_iterate, loopIters_initPhase s ht hdt, initPhase_eq_specInit]
  rw [funext loopBody_eq_specStep]

/-- Witness for C1 at the concrete system `wSystem` (one body, `start = 0`,
`stop = 1`, `dt = 1`). -/
theorem start_sim_is_kick_drift_kick_witness :
    wSystem.t = wSystem.start ∧ (0 : ℝ) < wSystem.dt ∧
    wSystem.start_sim = specStep^[specCount wSystem] (specInit wSystem) := by
  refine ⟨rfl, by norm_num [wSystem, System.init, System.add_body], ?_⟩
  exact start_sim_is_kick_drift_kick wSystem rfl (by norm_num [wSystem, System.init, System.add_body])

/-- C7. During each full acceleration sweep, every body's acceleration is
computed from the same position snapshot: the sequential in-place sweep
(`accSweep`, in which earlier bodies are already updated when later ones
are processed) yields for every body exactly the acceleration
`get_acc_for_body` computes from the pre-sweep body list, and the sweep
modifies no body's position or velocity (each output body differs from its
input body only in the `acceleration` field). -/
theorem acc_sweep_uses_one_snapshot (s : System) :
    (s.calculate_acc_for_all_bodies).bodies =
      s.bodies.map (fun b => { b with acceleration := s.get_acc_for_body b }) := by
  rw [calc_acc_eq_specAccAll]
  rfl

theorem iterate_namemass (s : System) (n : ℕ) :
    (loopBody^[n] s).bodies.map (fun b => (b.name, b.mass)) =
      s.bodies.map (fun b => (b.name, b.mass)) := by
  induction n with
  | zero => rfl
  | succ k ih =>
      rw [Function.iterate_succ_apply']
      rw [loopBody_eq_specStep]
      simp only [specStep, specRecord, specKick, specAccAll, specDrift, List.map_map]
      simpa using ih

theorem initPhase_namemass (s : System) :
    (initPhase s).bodies.map (fun b => (b.name, b.mass)) =
      s.bodies.map (fun b => (b.name, b.mass)) := by
  rw [initPhase_eq_specInit]
  simp [specInit, specRecord, specHalfKick, specAccAll, List.map_map]

/-- C10. `start_sim` never modifies any body's name or mass, and never adds
or removes bodies: the body list after `start_sim` has the same length and,
position by position, the same name and mass as before. -/
theorem start_sim_preserves_names_masses (s : System) :
    (s.start_sim).bodies.length = s.bodies.length ∧
    (s.start_sim).bodies.map (fun b => (b.name, b.mass)) =
      s.bodies.map (fun b => (b.name, b.mass)) := by
  have h : (s.start_sim).bodies.map (fun b => (b.name, b.mass)) =
      s.bodies.map (fun b => (b.name, b.mass)) := by
    unfold System.start_sim
    rw [runLoop_eq_iterate, iterate_namemass, initPhase_namemass]
  refine ⟨?_, h⟩
  have := congrArg List.length h
  simpa using this

theorem loopBody_length_mem (s : System) (b : Body) (hb : b ∈ (loopBody s).bodies) :
    ∃ b₀ ∈ s.bodies, b.position_list.length = b₀.position_list.length + 1 := by
  rw [loopBody_eq_specStep] at hb
  simp only [specStep, specRecord, specKick, specAccAll, specDrift, List.map_map,
    List.mem_map, Function.comp] at hb
  obtain ⟨b₀, hmem, heq⟩ := hb
  refine ⟨b₀, hmem, ?_⟩
  rw [← heq]
  simp

theorem initPhase_length_mem (s : System) (b : Body) (hb : b ∈ (initPhase s).bodies) :
    ∃ b₀ ∈ s.bodies, b.position_list.length = b₀.position_list.length + 1 := by
  rw [initPhase_eq_specInit] at hb
  simp only [specInit, specRecord, specHalfKick, specAccAll, List.map_map,
    List.mem_map, Function.comp] at hb
  obtain ⟨b₀, hmem, heq⟩ := hb
  refine ⟨b₀, hmem, ?_⟩
  rw [← heq]
  simp

theorem iterate_length_uniform (s : System) (c : ℕ)
    (h : ∀ b ∈ s.bodies, b.position_list.length = c) :
    ∀ n, ∀ b ∈ (loopBody^[n] s).bodies, b.position_list.length = c + n := by
  intro n
  induction n with
  | zero => simpa using h
  | succ k ih =>
      intro b hb
      rw [Function.iterate_succ_apply'] at hb
      obtain ⟨b₀, hmem, hlen⟩ := loopBody_length_mem _ b hb
      rw [hlen, ih b₀ hmem]
      omega

/-- C6. All bodies always carry trajectories of the same length: if every
body starts with an empty trajectory, then after the initialisation phase
and `n` completed loop iterations every body's trajectory has length
`n + 1`, for every `n`; in particular this holds for the final state
produced by `start_sim`. -/
theorem trajectory_length_invariant (s : System)
    (hinit : ∀ b ∈ s.bodies, b.position_list = []) :
    (∀ n, ∀ b ∈ (loopBody^[n] (initPhase s)).bodies, b.position_list.length = n + 1) ∧
    (∀ b ∈ (s.start_sim).bodies, b.position_list.length = loopIters (initPhase s) + 1) := by
  have h1 : ∀ b ∈ (initPhase s).bodies, b.position_list.length = 1 := by
    intro b hb
    obtain ⟨b₀, hmem, hlen⟩ := initPhase_length_mem s b hb
    rw [hlen, hinit b₀ hmem]
    rfl
  have hmain : ∀ n, ∀ b ∈ (loopBody^[n] (initPhase s)).bodies, b.position_list.length = n + 1 := by
    intro n b hb
    have := iterate_length_uniform (initPhase s) 1 h1 n b hb
    omega
  refine ⟨hmain, ?_⟩
  intro b hb
  unfold System.start_sim at hb
  rw [runLoop_eq_iterate] at hb
  exact hmain (loopIters (initPhase s)) b hb

/-- Witness for C6: the concrete single-body system `wSystem` starts with an
empty trajectory. -/
theorem trajectory_length_invariant_witness :
    (∀ b ∈ wSystem.bodies, b.position_list = []) ∧
    (∀ n, ∀ b ∈ (loopBody^[n] (initPhase wSystem)).bodies, b.position_list.length = n + 1) := by
  have h : ∀ b ∈ wSystem.bodies, b.position_list = [] := by
    intro b hb
    simp only [wSystem, System.init, System.add_body, wBody, Body.init,
      List.nil_append, List.mem_singleton] at hb
    rw [hb]
  exact ⟨h, (trajectory_length_invariant wSystem h).1⟩

theorem start_sim_length_aux (s : System)
    (hinit : ∀ b ∈ s.bodies, b.position_list = []) :
    ∀ b ∈ (s.start_sim).bodies, b.position_list.length = loopIters (initPhase s) + 1 := by
  intro b hb
  unfold System.start_sim at hb
  rw [runLoop_eq_iterate] at hb
  have h1 : ∀ b ∈ (initPhase s).bodies, b.position_list.length = 1 := by
    intro c hc
    obtain ⟨b₀, hmem, hlen⟩ := initPhase_length_mem s c hc
    rw [hlen, hinit b₀ hmem]
    rfl
  have := iterate_length_uniform (initPhase s) 1 h1 (loopIters (initPhase s)) b hb
  omega

/-- C3. For every valid configuration with `start ≤ stop` and `dt > 0` and
initially empty trajectories, after `start_sim` completes every body's
trajectory has length `1 + ⌊(stop - start) / dt⌋ + 1`. -/
theorem trajectory_total_length (s : System) (ht : s.t = s.start)
    (hss : s.start ≤ s.stop) (hdt : 0 < s.dt)
    (hinit : ∀ b ∈ s.bodies, b.position_list = []) :
    ∀ b ∈ (s.start_sim).bodies,
      b.position_list.length = 1 + ⌊(s.stop - s.start) / s.dt⌋₊ + 1 := by
  intro b hb
  have hlen := start_sim_length_aux s hinit b hb
  have hcount : loopIters (initPhase s) = ⌊(s.stop - s.start) / s.dt⌋₊ + 1 := by
    rw [loopIters_initPhase s ht hdt]
    unfold specCount
    rw [if_pos hss]
  rw [hlen, hcount]
  omega

/-- Witness for C3 at the concrete single-body system `wSystem`. -/
theorem trajectory_total_length_witness :
    wSystem.t = wSystem.start ∧ wSystem.start ≤ wSystem.stop ∧ (0 : ℝ) < wSystem.dt ∧
    (∀ b ∈ wSystem.bodies, b.position_list = []) ∧
    (∀ b ∈ wSystem.start_sim.bodies,
      b.position_list.length = 1 + ⌊(wSystem.stop - wSystem.start) / wSystem.dt⌋₊ + 1) := by
  have h1 : wSystem.t = wSystem.start := rfl
  have h2 : wSystem.start ≤ wSystem.stop := by
    norm_num [wSystem, System.init, System.add_body]
  have h3 : (0 : ℝ) < wSystem.dt := by
    norm_num [wSystem, System.init, System.add_body]
  have h4 : ∀ b ∈ wSystem.bodies, b.position_list = [] := by
    intro b hb
    simp only [wSystem, System.init, System.add_body, wBody, Body.init,
      List.nil_append, List.mem_singleton] at hb
    rw [hb]
  exact ⟨h1, h2, h3, h4, trajectory_total_length wSystem h1 h2 h3 h4⟩

/-- C5. If `start > stop`, then after `start_sim` every body's trajectory is
exactly one sample, and that sample is the body's initial position (the
half-kick changes only velocity, never position). -/
theorem degenerate_horizon (s : System) (ht : s.t = s.start) (hss : s.stop < s.start)
    (hinit : ∀ b ∈ s.bodies, b.position_list = []) :
    (s.start_sim).bodies.map (fun b => b.position_list) =
      s.bodies.map (fun b => [b.position]) := by
  unfold System.start_sim
  have h0 : loopIters (initPhase s) = 0 := by
    unfold loopIters
    rw [initPhase_t, initPhase_stop, initPhase_dt, ht, if_neg]
    intro hcon
    exact absurd hcon.2 (not_le.mpr hss)
  rw [runLoop_eq_iterate, h0, Function.iterate_zero_apply, initPhase_eq_specInit]
  simp only [specInit, specRecord, specHalfKick, specAccAll, List.map_map]
  apply List.map_congr_left
  intro b hb
  simp [Function.comp, hinit b hb]

/-- Witness for C5 at a concrete single-body system with `start = 1 > 0 =
stop`. -/
theorem degenerate_horizon_witness :
    (((System.init 1 0 1).add_body (PyVal.body wBody)).1.t
        = ((System.init 1 0 1).add_body (PyVal.body wBody)).1.start) ∧
    (((System.init 1 0 1).add_body (PyVal.body wBody)).1.stop
        < ((System.init 1 0 1).add_body (PyVal.body wBody)).1.start) ∧
    (∀ b ∈ ((System.init 1 0 1).add_body (PyVal.body wBody)).1.bodies, b.position_list = []) ∧
    (((System.init 1 0 1).add_body (PyVal.body wBody)).1.start_sim).bodies.map (fun b => b.position_list)
      = ((System.init 1 0 1).add_body (PyVal.body wBody)).1.bodies.map (fun b => [b.position]) := by
  have h1 : (((System.init 1 0 1).add_body (PyVal.body wBody)).1.t
      = ((System.init 1 0 1).add_body (PyVal.body wBody)).1.start) := rfl
  have h2 : (((System.init 1 0 1).add_body (PyVal.body wBody)).1.stop
      < ((System.init 1 0 1).add_body (PyVal.body wBody)).1.start) := by
    norm_num [System.init, System.add_body]
  have h3 : ∀ b ∈ ((System.init 1 0 1).add_body (PyVal.body wBody)).1.bodies, b.position_list = [] := by
    intro b hb
    simp only [System.init, System.add_body, wBody, Body.init,
      List.nil_append, List.mem_singleton] at hb
    rw [hb]
  exact ⟨h1, h2, h3, degenerate_horizon _ h1 h2 h3⟩

/-- The source guard constant `10e-10` is numerically `1e-9`. -/
theorem eps_eq : (10e-10 : ℝ) = 1e-9 := by norm_num

theorem getAccAux_sum (b : Body) :
    ∀ (l : List Body) (a : Point),
    getAccAux b l a =
      ⟨a.x + ((l.filter fun o => b.name != o.name).map fun o => (specContrib b o).x).sum,
       a.y + ((l.filter fun o => b.name != o.name).map fun o => (specContrib b o).y).sum,
       a.z + ((l.filter fun o => b.name != o.name).map fun o => (specContrib b o).z).sum⟩ := by
  intro l
  induction l with
  | nil =>
      intro a
      simp [getAccAux]
  | cons o rest ih =>
      intro a
      simp only [getAccAux]
      by_cases hname : b.name = o.name
      · rw [if_neg (fun hc => hc hname), ih]
        have hfilter : (o :: rest).filter (fun o2 => b.name != o2.name)
            = rest.filter (fun o2 => b.name != o2.name) := by
          simp [List.filter_cons, hname]
        rw [hfilter]
      · rw [if_pos hname]
        have hfilter : (o :: rest).filter (fun o2 => b.name != o2.name)
            = o :: rest.filter (fun o2 => b.name != o2.name) := by
          simp [List.filter_cons, hname]
        rw [hfilter]
        simp only [List.map_cons, List.sum_cons]
        by_cases hr : Real.sqrt ((b.position.x - o.position.x) * (b.position.x - o.position.x)
            + (b.position.y - o.position.y) * (b.position.y - o.position.y)
            + (b.position.z - o.position.z) * (b.position.z - o.position.z)) ^ 3 > 10e-10
        · rw [if_pos hr, ih]
          have hc : specContrib b o =
              ⟨-(G * o.mass * (b.position.x - o.position.x))
                  / Real.sqrt ((b.position.x - o.position.x) * (b.position.x - o.position.x)
                    + (b.position.y - o.position.y) * (b.position.y - o.position.y)
                    + (b.position.z - o.position.z) * (b.position.z - o.position.z)) ^ 3,
               -(G * o.mass * (b.position.y - o.position.y))
                  / Real.sqrt ((b.position.x - o.position.x) * (b.position.x - o.position.x)
                    + (b.position.y - o.position.y) * (b.position.y - o.position.y)
                    + (b.position.z - o.position.z) * (b.position.z - o.position.z)) ^ 3,
               -(G * o.mass * (b.position.z - o.position.z))
                  / Real.sqrt ((b.position.x - o.position.x) * (b.position.x - o.position.x)
                    + (b.position.y - o.position.y) * (b.position.y - o.position.y)
                    + (b.position.z - o.position.z) * (b.position.z - o.position.z)) ^ 3⟩ := by
            unfold specContrib
            rw [if_pos (by rw [← eps_eq]; exact hr)]
          rw [hc]
          simp only [Point.mk.injEq]
          refine ⟨by ring, by ring, by ring⟩
        · rw [if_neg hr, ih]
          have hc : specContrib b o = Point.zero := by
            unfold specContrib
            rw [if_neg (by rw [← eps_eq]; exact hr)]
          rw [hc]
          simp only [Point.zero, Point.mk.injEq]
          refine ⟨by ring, by ring, by ring⟩

/-- C2. For every body `b`, `get_acc_for_body b` is the componentwise sum,
over the bodies `o` whose name differs from `b`'s name, of
`-(G * o.mass * (b.position - o.position)) / r^3` where `r` is the
Euclidean norm of `b.position - o.position` and `G = 6.67259e-11`, each
contribution included exactly when `r^3 > 1e-9` and skipped entirely
otherwise (`specContrib` packages one contribution with that guard). -/
theorem get_acc_is_filtered_sum (s : System) (b : Body) :
    s.get_acc_for_body b =
      ⟨((s.bodies.filter fun o => b.name != o.name).map fun o => (specContrib b o).x).sum,
       ((s.bodies.filter fun o => b.name != o.name).map fun o => (specContrib b o).y).sum,
       ((s.bodies.filter fun o => b.name != o.name).map fun o => (specContrib b o).z).sum⟩ := by
  unfold System.get_acc_for_body
  rw [getAccAux_sum]
  simp [Point.zero]

/-- C9. `add_body` appends its argument and returns `0` when the argument
is a `Body` instance, and otherwise returns `1` leaving the body list
unchanged, so a run can still proceed with the previously added bodies. -/
theorem add_body_type_check (s : System) :
    (∀ b : Body, s.add_body (PyVal.body b) = ({ s with bodies := s.bodies ++ [b] }, 0)) ∧
    s.add_body PyVal.nonBody = (s, 1) :=
  ⟨fun _ => rfl, rfl⟩

theorem getAccAux_same_name (x y : Body) (h : x.name = y.name) (a : Point) :
    getAccAux x [y] a = a := by
  simp only [getAccAux]
  rw [if_neg (fun hc => hc h)]

theorem iterate_dt (s : System) (n : ℕ) : (loopBody^[n] s).dt = s.dt := by
  induction n with
  | zero => rfl
  | succ k ih => rw [Function.iterate_succ_apply', loopBody_dt, ih]

theorem loopBody_single (s : System) (b : Body) (hb : s.bodies = [b]) :
    (loopBody s).bodies =
      [{ b with
          position := ⟨b.position.x + b.velocity.x * s.dt,
                       b.position.y + b.velocity.y * s.dt,
                       b.position.z + b.velocity.z * s.dt⟩,
          acceleration := Point.zero,
          position_list := b.position_list ++
            [⟨b.position.x + b.velocity.x * s.dt,
              b.position.y + b.velocity.y * s.dt,
              b.position.z + b.velocity.z * s.dt⟩] }] := by
  simp only [loopBody, System.update_pos_for_all_bodies, System.calculate_acc_for_all_bodies,
    System.update_vel_for_all_bodies, System.add_pos_to_list_for_all_bodies, hb,
    List.map_cons, List.map_nil, accSweep, List.nil_append,
    Body.add_current_pos_to_list, kickBody, driftBody]
  rw [getAccAux_same_name _ _ rfl]
  simp [Point.zero]

theorem initPhase_single (s : System) (b : Body) (hb : s.bodies = [b])
    (hl : b.position_list = []) :
    (initPhase s).bodies = [⟨b.name, b.mass, b.position, b.velocity, Point.zero, [b.position]⟩] := by
  simp only [initPhase, System.calculate_acc_for_all_bodies, System.update_vel_for_all_bodies,
    System.add_pos_to_list_for_all_bodies, hb, accSweep, List.nil_append,
    List.map_cons, List.map_nil, kickBody, Body.add_current_pos_to_list]
  rw [getAccAux_same_name _ _ rfl]
  simp [Point.zero, hl]

theorem single_iterate (s0 : System) (nm : String) (m : ℝ) (p v : Point) (dt : ℝ)
    (hdt : s0.dt = dt)
    (hb : s0.bodies = [⟨nm, m, p, v, Point.zero, [p]⟩]) :
    ∀ n : ℕ, (loopBody^[n] s0).bodies =
      [⟨nm, m,
        ⟨p.x + (n : ℝ) * (v.x * dt), p.y + (n : ℝ) * (v.y * dt), p.z + (n : ℝ) * (v.z * dt)⟩,
        v, Point.zero,
        (List.range (n + 1)).map (fun k : ℕ =>
          ⟨p.x + (k : ℝ) * (v.x * dt), p.y + (k : ℝ) * (v.y * dt), p.z + (k : ℝ) * (v.z * dt)⟩)⟩] := by
  intro n
  induction n with
  | zero =>
      rw [Function.iterate_zero_apply, hb]
      simp only [List.range_succ, List.range_zero, List.nil_append, List.map_cons, List.map_nil]
      norm_num
  | succ k ih =>
      rw [Function.iterate_succ_apply', loopBody_single _ _ ih]
      have hdt' : (loopBody^[k] s0).dt = dt := by rw [iterate_dt, hdt]
      rw [hdt']
      have hx : p.x + (k : ℝ) * (v.x * dt) + v.x * dt = p.x + ((k + 1 : ℕ) : ℝ) * (v.x * dt) := by
        push_cast
        ring
      have hy : p.y + (k : ℝ) * (v.y * dt) + v.y * dt = p.y + ((k + 1 : ℕ) : ℝ) * (v.y * dt) := by
        push_cast
        ring
      have hz : p.z + (k : ℝ) * (v.z * dt) + v.z * dt = p.z + ((k + 1 : ℕ) : ℝ) * (v.z * dt) := by
        push_cast
        ring
      rw [show List.range (k + 1 + 1) = List.range (k + 1) ++ [k + 1] from List.range_succ (k + 1)]
      simp only [List.map_append, List.map_cons, List.map_nil, List.cons.injEq, and_true,
        true_and, Body.mk.injEq, Point.mk.injEq, List.append_cancel_left_eq]
      exact ⟨⟨hx, hy, hz⟩, hx, hy, hz⟩

/-- C8. A body never accumulates an acceleration contribution from a body
with an equal name, in particular from itself: for a system whose body set
is a single body, `get_acc_for_body` returns the zero vector, and the
recorded trajectory of the run is the straight line advancing by
`velocity * dt` each step (stationary when the initial velocity is zero). -/
theorem single_body_self_exclusion (s : System) (b : Body)
    (hb : s.bodies = [b]) (hl : b.position_list = []) :
    s.get_acc_for_body b = Point.zero ∧
    (s.start_sim).bodies.map (fun c => c.position_list) =
      [(List.range (loopIters (initPhase s) + 1)).map (fun k : ℕ =>
        ⟨b.position.x + (k : ℝ) * (b.velocity.x * s.dt),
         b.position.y + (k : ℝ) * (b.velocity.y * s.dt),
         b.position.z + (k : ℝ) * (b.velocity.z * s.dt)⟩)] := by
  constructor
  · unfold System.get_acc_for_body
    rw [hb]
    exact getAccAux_same_name b b rfl Point.zero
  · unfold System.start_sim
    rw [runLoop_eq_iterate]
    have h0 := initPhase_single s b hb hl
    have h1 := single_iterate (initPhase s) b.name b.mass b.position b.velocity s.dt rfl h0
      (loopIters (initPhase s))
    rw [h1]
    simp

/-- Witness for C8 at the concrete single-body system `wSystem`. -/
theorem single_body_self_exclusion_witness :
    wSystem.bodies = [wBody] ∧ wBody.position_list = [] ∧
    wSystem.get_acc_for_body wBody = Point.zero := by
  refine ⟨rfl, rfl, ?_⟩
  exact (single_body_self_exclusion wSystem wBody rfl rfl).1

/-- C4 counterexample.  The concrete configuration `cxSystem` has two
bodies that share the name `A`, one of them with negative mass `-5`, yet
both `add_body` calls succeed with return code `0` (no error is raised
anywhere in construction), and `start_sim` runs normally, producing a
2-sample trajectory for each body — contradicting the claim that such a
configuration fails before any stepping with no trajectory produced. -/
theorem construction_rejects_nothing_cx :
    cxBodyA.name = cxBodyB.name ∧ cxBodyA.mass < 0 ∧
    ((System.init 0 0 1).add_body (PyVal.body cxBodyA)).2 = 0 ∧
    (((System.init 0 0 1).add_body (PyVal.body cxBodyA)).1.add_body (PyVal.body cxBodyB)).2 = 0 ∧
    (cxSystem.start_sim).bodies.map (fun b => b.position_list.length) = [2, 2] := by
  refine ⟨rfl, by norm_num [cxBodyA, Body.init], rfl, rfl, ?_⟩
  have hinit : (initPhase cxSystem).bodies =
      [⟨"A", -5, ⟨0, 0, 0⟩, ⟨0, 0, 0⟩, Point.zero, [⟨0, 0, 0⟩]⟩,
       ⟨"A", 1, ⟨1, 0, 0⟩, ⟨0, 0, 0⟩, Point.zero, [⟨1, 0, 0⟩]⟩] := by
    simp [initPhase, System.calculate_acc_for_all_bodies, System.update_vel_for_all_bodies,
      System.add_pos_to_list_for_all_bodies, accSweep, getAccAux, kickBody,
      Body.add_current_pos_to_list, cxSystem, System.init, System.add_body,
      cxBodyA, cxBodyB, Body.init, Point.zero]
  have hiters : loopIters (initPhase cxSystem) = 1 := by
    unfold loopIters
    rw [initPhase_t, initPhase_stop, initPhase_dt]
    rw [if_pos (by constructor <;> norm_num [cxSystem, System.init, System.add_body])]
    norm_num [cxSystem, System.init, System.add_body]
  unfold System.start_sim
  rw [runLoop_eq_iterate, hiters, Function.iterate_one]
  have hdtcx : (initPhase cxSystem).dt = 1 := rfl
  simp [loopBody, System.update_pos_for_all_bodies, System.calculate_acc_for_all_bodies,
    System.update_vel_for_all_bodies, System.add_pos_to_list_for_all_bodies, hinit, hdtcx,
    accSweep, getAccAux, kickBody, driftBody, Body.add_current_pos_to_list, Point.zero,
    cxBodyA, cxBodyB, Body.init]

/-- C4 amended.  Construction performs no validation at all: `System.init`
accepts any `start`, `stop`, `dt` (including `dt ≤ 0`), and `add_body`
accepts every `Body` — regardless of duplicate names or non-positive
masses — appending it and returning the success code `0`.  No
configuration is rejected before stepping. -/
theorem construction_performs_no_validation (start stop dt : ℝ) (b₁ b₂ : Body) :
    ((System.init start stop dt).add_body (PyVal.body b₁)).2 = 0 ∧
    (((System.init start stop dt).add_body (PyVal.body b₁)).1.add_body (PyVal.body b₂)).2 = 0 ∧
    (((System.init start stop dt).add_body (PyVal.body b₁)).1.add_body (PyVal.body b₂)).1.bodies
      = [b₁, b₂] :=
  ⟨rfl, rfl, rfl⟩
